import Mathlib

/-!
Verification of the dirshot scanning engine (`src/dirshot/dirshot.py`).

Strings are modelled as `List Char` (`Str`); Python's `str.lower` maps
`Char.toLower` over the characters, `str.strip` drops whitespace at both
ends, and the containment test `key in s` is `strContains s key`.
Filesystem trees are the mutual inductives `FSEntry`/`FSForest`; file
contents are carried on the leaves as a list of text lines together with a
readability flag (an unreadable file models a per-file `OSError`).
-/

namespace Dirshot

/-- Strings as lists of characters, mirroring Python `str`. -/
abbrev Str := List Char

/-- Python `str.lower()` (per-character lowercasing). -/
def lowerStr (s : Str) : Str := s.map Char.toLower

/-- Python `str.strip()`: drop leading and trailing whitespace. -/
def stripStr (s : Str) : Str :=
  ((s.dropWhile Char.isWhitespace).reverse.dropWhile Char.isWhitespace).reverse

/-- Boolean test that `p` is a leading segment of `s` (used to model both
Python's `str.startswith` and as the base step of substring search). -/
def isPrefixB : Str → Str → Bool
  | [], _ => true
  | _ :: _, [] => false
  | a :: as, b :: bs => a = b && isPrefixB as bs

/-- Python's substring containment `k in t` (`True` when `k` occurs as a
contiguous segment of `t`; the empty string is contained in everything). -/
def strContains (t k : Str) : Bool :=
  match t with
  | [] => k.isEmpty
  | _ :: ts => isPrefixB k t || strContains ts k

/-- CPython `PurePath.suffix` of a file name: the segment from the last dot
when that dot is neither the first nor the last character, else empty
(so `"a.py"` has suffix `".py"`, while `"Pipfile"` and `".env"` have none). -/
def rfindDotAux : Str → Nat → Option Nat → Option Nat
  | [], _, acc => acc
  | c :: cs, i, acc => rfindDotAux cs (i + 1) (if c = '.' then some i else acc)

/-- `pathSuffix name` is `name.suffix` of Python's `pathlib`. -/
def pathSuffix (name : Str) : Str :=
  match rfindDotAux name 0 none with
  | none => []
  | some i => if 0 < i ∧ i < name.length - 1 then name.drop i else []

/-- `FilterCriteria` (dirshot.py): the three normalized token sets. -/
structure FilterCriteria where
  file_extensions : Finset Str
  ignore_if_in_path : Finset Str
  ignore_extensions : Finset Str
deriving DecidableEq

/-- The token normalization applied to explicit override tokens in
`FilterCriteria.normalize_inputs`: Python `t.lower().strip()`. -/
def normToken (t : Str) : Str := stripStr (lowerStr t)

/-- `FilterCriteria.normalize_inputs` (dirshot.py): explicit override lists
are lower-cased and stripped elementwise into sets; preset token lists are
unioned in verbatim (`all_exts.update(p.value)`), with no normalization.
Presets are modelled by their `value` token lists. -/
def FilterCriteria.normalize_inputs
    (file_types ignore_if_in_path ignore_extensions : List Str)
    (lang_presets ignore_presets : List (List Str)) : FilterCriteria :=
  let all_exts := (file_types.map normToken).toFinset
  let all_ignore_paths := (ignore_if_in_path.map normToken).toFinset
  let all_ignore_exts := (ignore_extensions.map normToken).toFinset
  let all_exts := lang_presets.foldl (fun s p => s ∪ p.toFinset) all_exts
  let all_ignore_paths :=
    ignore_presets.foldl (fun s p => s ∪ p.toFinset) all_ignore_paths
  ⟨all_exts, all_ignore_paths, all_ignore_exts⟩

/-- `LanguagePreset.PYTHON.value` (dirshot.py). -/
def LanguagePresetPYTHON : List Str :=
  [".py".toList, ".pyw".toList, "requirements.txt".toList, "Pipfile".toList,
   "pyproject.toml".toList, "setup.py".toList]

/-- `IgnorePreset.OS_FILES.value` (dirshot.py). -/
def IgnorePresetOSFILES : List Str :=
  [".DS_Store".toList, "Thumbs.db".toList, "desktop.ini".toList,
   "ehthumbs.db".toList]

/-- The per-file accept test of `_discover_files` (dirshot.py): the file is
skipped when `criteria.ignore_extensions` is non-empty and contains the
lower-cased suffix; otherwise it is a candidate iff `criteria.file_extensions`
is empty or contains the lower-cased suffix. -/
def fileAccepted (c : FilterCriteria) (name : Str) : Bool :=
  let file_ext := lowerStr (pathSuffix name)
  if ¬c.ignore_extensions = ∅ ∧ file_ext ∈ c.ignore_extensions then false
  else if c.file_extensions = ∅ ∨ file_ext ∈ c.file_extensions then true
  else false

mutual
/-- A directory entry as seen by `os.scandir`: a file (name, text lines,
readability) or a directory with its entries. -/
inductive FSEntry : Type where
  | file : Str → List Str → Bool → FSEntry
  | dir : Str → FSForest → FSEntry
deriving DecidableEq

/-- The entries of one directory, in scan order. -/
inductive FSForest : Type where
  | nil : FSForest
  | cons : FSEntry → FSForest → FSForest
deriving DecidableEq
end

/-- A candidate produced by the walker: absolute path string, file name,
path components relative to the scan root, and the file's content model. -/
structure CandidateFile where
  pathStr : Str
  name : Str
  relParts : List Str
  contentLines : List Str
  readable : Bool
deriving DecidableEq

/-- The POSIX relative path of a candidate (`relative_to(root).as_posix()`). -/
def relPosix (f : CandidateFile) : Str := List.intercalate "/".toList f.relParts

mutual
/-- One step of `_discover_files.recursive_scan` (dirshot.py) on a single
entry: if the lower-cased entry name is in `ignore_if_in_path` the entry and
its whole subtree are skipped; a directory is recursed into; a file is kept
when `fileAccepted`.  `cur` is the absolute path of the enclosing directory
(`entry.path` is `cur ++ "/" ++ name`). -/
def discoverEntry (c : FilterCriteria) (cur : Str) : FSEntry → List CandidateFile
  | .file n content readable =>
    if lowerStr n ∈ c.ignore_if_in_path then []
    else if fileAccepted c n then
      [⟨cur ++ "/".toList ++ n, n, [n], content, readable⟩]
    else []
  | .dir n f =>
    if lowerStr n ∈ c.ignore_if_in_path then []
    else (discoverForest c (cur ++ "/".toList ++ n) f).map
      (fun p => { p with relParts := n :: p.relParts })

/-- `_discover_files.recursive_scan` over the entries of one directory. -/
def discoverForest (c : FilterCriteria) (cur : Str) : FSForest → List CandidateFile
  | .nil => []
  | .cons e f => discoverEntry c cur e ++ discoverForest c cur f
end

/-- `BINARY_FILE_EXTENSIONS` (dirshot.py). -/
def BINARY_FILE_EXTENSIONS : List Str :=
  [".png".toList, ".jpg".toList, ".jpeg".toList, ".gif".toList, ".pdf".toList,
   ".zip".toList, ".exe".toList, ".dll".toList, ".so".toList, ".jar".toList,
   ".pyc".toList, ".mp3".toList, ".mp4".toList]

/-- `process_file_for_search` (dirshot.py): the name check compares every
keyword against the lower-cased compare target (the full path string when
`full_path`, else the file name); on a miss, when content search applies the
file is scanned line by line (an unreadable file contributes no match). -/
def process_file_for_search (f : CandidateFile) (keywords : List Str)
    (search_content full_path read_binary_files : Bool) : Bool :=
  let compare_target := if full_path then f.pathStr else f.name
  if keywords.any (fun key => strContains (lowerStr compare_target) key) then true
  else if search_content &&
      (read_binary_files || !(lowerStr (pathSuffix f.name) ∈ BINARY_FILE_EXTENSIONS : Bool)) then
    f.readable && f.contentLines.any
      (fun line => keywords.any (fun key => strContains (lowerStr line) key))
  else false

/-- Keyword normalization in `generate_snapshot` (dirshot.py):
`[k.lower().strip() for k in search_keywords or [] if k.strip()]`. -/
def normalizeKeywords (ks : List Str) : List Str :=
  (ks.filter (fun k => !(stripStr k).isEmpty)).map (fun k => stripStr (lowerStr k))

/-- `snapshot_mode = not keywords` (dirshot.py): the scan is a snapshot
exactly when no usable keyword survives normalization. -/
def snapshot_mode (ks : List Str) : Bool := (normalizeKeywords ks).isEmpty

/-- The matched-file stage of `generate_snapshot`: in snapshot mode every
candidate is matched, otherwise candidates are filtered through
`process_file_for_search` with the normalized keywords. -/
def matchedFiles (candidates : List CandidateFile) (ks : List Str)
    (search_content full_path read_binary_files : Bool) : List CandidateFile :=
  if snapshot_mode ks then candidates
  else candidates.filter
    (fun f => process_file_for_search f (normalizeKeywords ks)
      search_content full_path read_binary_files)

/-- Python string `<` (lexicographic by code point) as a `≤` test. -/
def strLe : Str → Str → Bool
  | [], _ => true
  | _ :: _, [] => false
  | a :: as, b :: bs => decide (a < b) || (decide (a = b) && strLe as bs)

/-- The output ordering relation of `generate_snapshot`:
`sorted(..., key=lambda p: p.relative_to(root_dir).as_posix())`, a
case-sensitive comparison of the POSIX relative path strings. -/
def fileLe (a b : CandidateFile) : Prop := strLe (relPosix a) (relPosix b) = true

instance : DecidableRel fileLe := fun a b => by
  unfold fileLe; infer_instance

/-- The sort applied to `matched_files` before any output-facing use
(`sorted_files` in `generate_snapshot`).  Python's `sorted` is a stable
ascending sort, modelled by stable insertion sort under `fileLe`. -/
def sortFiles (files : List CandidateFile) : List CandidateFile :=
  files.insertionSort fileLe

/-- The ordering the spec claims for the same stage: case-insensitive
comparison of the relative paths.  Stated from the spec's words, for
comparison with `sortFiles`. -/
def fileLeCI (a b : CandidateFile) : Prop :=
  strLe (lowerStr (relPosix a)) (lowerStr (relPosix b)) = true

instance : DecidableRel fileLeCI := fun a b => by
  unfold fileLeCI; infer_instance

/-- Spec-side variant of `sortFiles` sorting case-insensitively. -/
def sortFilesCI (files : List CandidateFile) : List CandidateFile :=
  files.insertionSort fileLeCI

/-- `"-" * 80`, the fixed-width separator of the output format. -/
def sep80 : Str := List.replicate 80 '-'

/-- `TREE_HEADER_TEXT` (dirshot.py). -/
def treeHeaderText : Str := "Project File Structure".toList

/-- A `FILE:` delimiter header line (`FILE_HEADER_PREFIX` + relative path). -/
def fileHeaderLine (rel : Str) : Str := "FILE: ".toList ++ rel

/-- The stats key written by `_collate_content_to_file` when
`show_tree_stats` is set, as lines. -/
def statsKeyLines : List Str :=
  ["Key: [M: Matched files/dirs]".toList, "     (f=files, d=directories)".toList]

/-- The inline note written when a file cannot be read
(`"Error: Could not read file. Issue: ..."`); the exception text is
abstracted away. -/
def readErrorLine : Str := "Error: Could not read file.".toList

/-- The lines one file contributes to the collated buffer
(`_collate_content_to_file`): separator, `FILE:` header, separator, a blank
line, the file's text (or the inline error note), and a blank line. -/
def fileBlockLines (f : CandidateFile) : List Str :=
  [sep80, fileHeaderLine (relPosix f), sep80, []] ++
    (if f.readable then f.contentLines else [readErrorLine]) ++ [[]]

/-- The collated buffer of `_collate_content_to_file`, as its list of
`'\n'`-separated lines: when tree lines are present, the
`Project File Structure` header, a separator, a blank line, the optional
stats key, the tree lines and a blank line; then each file's block; the
buffer ends with a final newline (trailing empty line). -/
def collateLines (tree_lines : List Str) (show_tree_stats : Bool)
    (files : List CandidateFile) : List Str :=
  (if tree_lines.isEmpty then [] else
    [treeHeaderText, sep80, []] ++
      (if show_tree_stats then statsKeyLines ++ [[]] else []) ++
      tree_lines ++ [[]]) ++
  files.flatMap fileBlockLines ++ [[]]

/-- The four states of the deconstruction parser. -/
inductive DeconState : Type where
  | seekingTreeHeader | readingTree | seekingContent | readingContent
deriving DecidableEq

/-- Modelled from the spec: `deconstruct_snapshot` is absent from `src/`
(only `tests/test.py` imports it).  The spec describes it as a line-oriented
state machine (states seeking-tree-header, reading-tree, seeking-content,
reading-content) recovering the tree lines and the ordered `FILE:` relative
paths from a collated buffer.  In `readingTree`, separator lines before any
tree content and blank lines are skipped, and a separator after tree content
ends the tree section; in `seekingContent` a `FILE: ` line records its path;
in `readingContent` a separator returns to `seekingContent`. -/
def deconRun (st : DeconState) (ls : List Str) (tree paths : List Str) :
    List Str × List Str :=
  match ls with
  | [] => (tree.reverse, paths.reverse)
  | l :: ls =>
    match st with
    | .seekingTreeHeader =>
      if l = treeHeaderText then deconRun .readingTree ls tree paths
      else deconRun .seekingTreeHeader ls tree paths
    | .readingTree =>
      if l = sep80 then
        if tree.isEmpty then deconRun .readingTree ls tree paths
        else deconRun .seekingContent ls tree paths
      else if l.isEmpty then deconRun .readingTree ls tree paths
      else deconRun .readingTree ls (l :: tree) paths
    | .seekingContent =>
      if isPrefixB "FILE: ".toList l then
        deconRun .readingContent ls tree (l.drop 6 :: paths)
      else deconRun .seekingContent ls tree paths
    | .readingContent =>
      if l = sep80 then deconRun .seekingContent ls tree paths
      else deconRun .readingContent ls tree paths

/-- Modelled from the spec: the deconstruct operation on a buffer given as
its list of lines, returning the recovered tree lines and the ordered list
of `FILE:` relative paths. -/
def deconstruct_snapshot (ls : List Str) : List Str × List Str :=
  deconRun .seekingTreeHeader ls [] []

/-- `ScanError`: the only fatal condition `generate_snapshot` detects is a
missing/invalid root directory (`if not root_dir.is_dir(): ... return`). -/
inductive ScanError : Type where
  | rootNotFound
deriving DecidableEq

/-- The observable outcome of `generate_snapshot` (dirshot.py): a fatal
`rootNotFound` when the root is not a directory; otherwise the matched files
together with the written buffer — `None` when the matched set is empty,
since the whole collation stage sits under `if matched_files:` and no output
artifact is produced.  `treeGen` stands for `_generate_tree_with_stats`,
which the pipeline applies to the sorted files when `generate_tree` is set. -/
def generate_snapshot (rootIsDir : Bool) (tree : FSForest) (rootStr : Str)
    (c : FilterCriteria) (ks : List Str)
    (search_content full_path read_binary_files generate_tree show_tree_stats : Bool)
    (treeGen : List CandidateFile → List Str) :
    Except ScanError (List CandidateFile × Option (List Str)) :=
  if !rootIsDir then .error .rootNotFound
  else
    let candidates := discoverForest c rootStr tree
    let matched := matchedFiles candidates ks search_content full_path read_binary_files
    if matched.isEmpty then .ok (matched, none)
    else
      let sorted_files := sortFiles matched
      let tree_lines := if generate_tree then treeGen sorted_files else []
      .ok (matched, some (collateLines tree_lines show_tree_stats sorted_files))

/-! ## Helper lemmas -/

theorem mem_foldl_union (ps : List (List Str)) (init : Finset Str) (x : Str) :
    x ∈ ps.foldl (fun s p => s ∪ p.toFinset) init ↔
      x ∈ init ∨ ∃ p ∈ ps, x ∈ p := by
  induction ps generalizing init with
  | nil => simp
  | cons p ps ih =>
    simp only [List.foldl_cons, ih, Finset.mem_union, List.mem_toFinset,
      List.mem_cons]
    constructor
    · rintro ((h | h) | ⟨q, hq, hx⟩)
      · exact Or.inl h
      · exact Or.inr ⟨p, Or.inl rfl, h⟩
      · exact Or.inr ⟨q, Or.inr hq, hx⟩
    · rintro (h | ⟨q, (rfl | hq), hx⟩)
      · exact Or.inl (Or.inl h)
      · exact Or.inl (Or.inr hx)
      · exact Or.inr ⟨q, hq, hx⟩

theorem normalize_inputs_mem (ft ip ie : List Str) (lps ips : List (List Str))
    (x : Str) :
    (x ∈ (FilterCriteria.normalize_inputs ft ip ie lps ips).file_extensions ↔
      (∃ t ∈ ft, x = normToken t) ∨ ∃ p ∈ lps, x ∈ p) ∧
    (x ∈ (FilterCriteria.normalize_inputs ft ip ie lps ips).ignore_if_in_path ↔
      (∃ t ∈ ip, x = normToken t) ∨ ∃ p ∈ ips, x ∈ p) ∧
    (x ∈ (FilterCriteria.normalize_inputs ft ip ie lps ips).ignore_extensions ↔
      ∃ t ∈ ie, x = normToken t) := by
  simp only [FilterCriteria.normalize_inputs, mem_foldl_union,
    List.mem_toFinset, List.mem_map]
  refine ⟨?_, ?_, ?_⟩
  · constructor
    · rintro (⟨t, ht, h⟩ | h)
      · exact Or.inl ⟨t, ht, h.symm⟩
      · exact Or.inr h
    · rintro (⟨t, ht, h⟩ | h)
      · exact Or.inl ⟨t, ht, h.symm⟩
      · exact Or.inr h
  · constructor
    · rintro (⟨t, ht, h⟩ | h)
      · exact Or.inl ⟨t, ht, h.symm⟩
      · exact Or.inr h
    · rintro (⟨t, ht, h⟩ | h)
      · exact Or.inl ⟨t, ht, h.symm⟩
      · exact Or.inr h
  · constructor
    · rintro ⟨t, ht, h⟩
      exact ⟨t, ht, h.symm⟩
    · rintro ⟨t, ht, h⟩
      exact ⟨t, ht, h.symm⟩

/-! ## Claim theorems -/

/-- C5 counterexample: `normalize_inputs` does not drop empty tokens —
normalizing the whitespace-only override token `"  "` leaves the empty
token in `file_extensions` — and preset tokens are not lower-cased: the
`PYTHON` preset's token `"Pipfile"` enters the criteria verbatim even
though it differs from its lower-casing. -/
theorem C5_counterexample :
    ([] : Str) ∈
      (FilterCriteria.normalize_inputs ["  ".toList] [] [] [] []).file_extensions ∧
    "Pipfile".toList ∈
      (FilterCriteria.normalize_inputs [] [] [] [LanguagePresetPYTHON] []).file_extensions ∧
    lowerStr "Pipfile".toList ≠ "Pipfile".toList := by decide

/-- C5 (amended): explicit override tokens are trimmed and lower-cased on
entry to the criteria (tokens that become empty are retained as the empty
string, never an error), while preset tokens are united in verbatim with no
trimming or lower-casing: membership in each resulting set is exactly
normalized membership in the overrides or verbatim membership in a preset. -/
theorem C5_token_normalization (ft ip ie : List Str) (lps ips : List (List Str))
    (x : Str) :
    (x ∈ (FilterCriteria.normalize_inputs ft ip ie lps ips).file_extensions ↔
      (∃ t ∈ ft, x = normToken t) ∨ ∃ p ∈ lps, x ∈ p) ∧
    (x ∈ (FilterCriteria.normalize_inputs ft ip ie lps ips).ignore_if_in_path ↔
      (∃ t ∈ ip, x = normToken t) ∨ ∃ p ∈ ips, x ∈ p) ∧
    (x ∈ (FilterCriteria.normalize_inputs ft ip ie lps ips).ignore_extensions ↔
      ∃ t ∈ ie, x = normToken t) :=
  normalize_inputs_mem ft ip ie lps ips x

theorem FilterCriteria.eq_of_fields {c₁ c₂ : FilterCriteria}
    (h1 : c₁.file_extensions = c₂.file_extensions)
    (h2 : c₁.ignore_if_in_path = c₂.ignore_if_in_path)
    (h3 : c₁.ignore_extensions = c₂.ignore_extensions) : c₁ = c₂ := by
  cases c₁; cases c₂; simp_all

theorem normalize_inputs_preset_invariant (ft ip ie : List Str)
    (lps₁ ips₁ lps₂ ips₂ : List (List Str))
    (hl : ∀ p, p ∈ lps₁ ↔ p ∈ lps₂) (hi : ∀ p, p ∈ ips₁ ↔ p ∈ ips₂) :
    FilterCriteria.normalize_inputs ft ip ie lps₁ ips₁ =
      FilterCriteria.normalize_inputs ft ip ie lps₂ ips₂ := by
  refine FilterCriteria.eq_of_fields ?_ ?_ ?_
  · refine Finset.ext fun x => ?_
    rw [(normalize_inputs_mem ft ip ie lps₁ ips₁ x).1,
      (normalize_inputs_mem ft ip ie lps₂ ips₂ x).1]
    constructor <;> rintro (h | ⟨p, hp, hx⟩)
    · exact Or.inl h
    · exact Or.inr ⟨p, (hl p).1 hp, hx⟩
    · exact Or.inl h
    · exact Or.inr ⟨p, (hl p).2 hp, hx⟩
  · refine Finset.ext fun x => ?_
    rw [(normalize_inputs_mem ft ip ie lps₁ ips₁ x).2.1,
      (normalize_inputs_mem ft ip ie lps₂ ips₂ x).2.1]
    constructor <;> rintro (h | ⟨p, hp, hx⟩)
    · exact Or.inl h
    · exact Or.inr ⟨p, (hi p).1 hp, hx⟩
    · exact Or.inl h
    · exact Or.inr ⟨p, (hi p).2 hp, hx⟩
  · refine Finset.ext fun x => ?_
    rw [(normalize_inputs_mem ft ip ie lps₁ ips₁ x).2.2,
      (normalize_inputs_mem ft ip ie lps₂ ips₂ x).2.2]

/-- C9: preset union is commutative and idempotent — with fixed override
lists, normalizing with language presets `[A, B]` and ignore presets
`[X, Y]` yields the same `FilterCriteria` as with `[B, A]`/`[Y, X]` and as
with `[A, A, B]`/`[X, X, Y]`: the result is independent of preset order and
repetition. -/
theorem C9_preset_union_comm_idem (ft ip ie : List Str) (A B X Y : List Str) :
    FilterCriteria.normalize_inputs ft ip ie [A, B] [X, Y] =
      FilterCriteria.normalize_inputs ft ip ie [B, A] [Y, X] ∧
    FilterCriteria.normalize_inputs ft ip ie [A, B] [X, Y] =
      FilterCriteria.normalize_inputs ft ip ie [A, A, B] [X, X, Y] := by
  constructor <;>
    refine normalize_inputs_preset_invariant ft ip ie _ _ _ _
      (fun p => ?_) (fun p => ?_) <;>
    · simp only [List.mem_cons, List.not_mem_nil, or_false]
      tauto

/-- C4 counterexample: there is no exact-filename matching — with include
set `{"requirements.txt"}` (non-empty), the file `requirements.txt` has its
full lower-cased name in the include set, yet `_discover_files` rejects it,
because only its suffix `".txt"` is ever compared against the set. -/
theorem C4_counterexample :
    lowerStr "requirements.txt".toList ∈
      (FilterCriteria.normalize_inputs
        ["requirements.txt".toList] [] [] [] []).file_extensions ∧
    fileAccepted
      (FilterCriteria.normalize_inputs ["requirements.txt".toList] [] [] [] [])
      "requirements.txt".toList = false := by decide

/-- C4 (amended): acceptance depends on the file's lower-cased extension
alone — a file not rejected by the ignore-extension check is accepted iff
the include set is empty or contains its lower-cased extension; the full
file name is never consulted (there is no exact-filename set: all include
tokens land in the single `file_extensions` set), so two names with the same
suffix are always classified alike. -/
theorem C4_extension_only_acceptance (c : FilterCriteria) (name : Str) :
    (fileAccepted c name = true ↔
      lowerStr (pathSuffix name) ∉ c.ignore_extensions ∧
        (c.file_extensions = ∅ ∨ lowerStr (pathSuffix name) ∈ c.file_extensions)) ∧
    (∀ n₁ n₂ : Str, pathSuffix n₁ = pathSuffix n₂ →
      fileAccepted c n₁ = fileAccepted c n₂) := by
  constructor
  · simp only [fileAccepted]
    by_cases hmem : lowerStr (pathSuffix name) ∈ c.ignore_extensions
    · have hne : ¬c.ignore_extensions = ∅ := by
        intro h
        rw [h] at hmem
        exact absurd hmem (Finset.not_mem_empty _)
      rw [if_pos ⟨hne, hmem⟩]
      simp [hmem]
    · rw [if_neg (fun h => hmem h.2)]
      by_cases hinc : c.file_extensions = ∅ ∨
          lowerStr (pathSuffix name) ∈ c.file_extensions
      · rw [if_pos hinc]
        simp [hmem, hinc]
      · rw [if_neg hinc]
        simp [hmem, hinc]
  · intro n₁ n₂ h
    simp only [fileAccepted, h]

/-- C8: when a file's lower-cased extension is in both the include set and
the ignore set, the file is rejected — the ignore-extension check of
`_discover_files` runs before the include check, so ignore always wins. -/
theorem C8_ignore_wins (c : FilterCriteria) (name : Str)
    (h1 : lowerStr (pathSuffix name) ∈ c.file_extensions)
    (h2 : lowerStr (pathSuffix name) ∈ c.ignore_extensions) :
    fileAccepted c name = false := by
  have hne : ¬c.ignore_extensions = ∅ := by
    intro h
    rw [h] at h2
    exact absurd h2 (Finset.not_mem_empty _)
  simp only [fileAccepted]
  rw [if_pos ⟨hne, h2⟩]

/-- Witness for C8 at `a.py` with `".py"` both included and ignored. -/
theorem C8_ignore_wins_witness :
    (lowerStr (pathSuffix "a.py".toList) ∈
        (FilterCriteria.normalize_inputs
          [".py".toList] [] [".py".toList] [] []).file_extensions ∧
      lowerStr (pathSuffix "a.py".toList) ∈
        (FilterCriteria.normalize_inputs
          [".py".toList] [] [".py".toList] [] []).ignore_extensions) ∧
    fileAccepted
      (FilterCriteria.normalize_inputs [".py".toList] [] [".py".toList] [] [])
      "a.py".toList = false :=
  ⟨⟨by decide, by decide⟩,
    C8_ignore_wins _ "a.py".toList (by decide) (by decide)⟩

/-- C1 counterexample: invoking the scan with a whitespace-only keyword list
does not fail with any error condition — `generate_snapshot` silently runs
in snapshot mode: the sole candidate is matched without any keyword check
and its content line is read into the collated output buffer. -/
theorem C1_counterexample :
    generate_snapshot true
        (.cons (.file "main.py".toList ["print".toList] true) .nil)
        "/r".toList ⟨∅, ∅, ∅⟩ ["  ".toList, " ".toList]
        true true false false false (fun _ => []) =
      .ok ([⟨"/r/main.py".toList, "main.py".toList, ["main.py".toList],
              ["print".toList], true⟩],
        some [sep80, fileHeaderLine "main.py".toList, sep80, [],
          "print".toList, [], []]) := by rfl

/-- C1 (amended): a keyword list that is empty or contains only
whitespace-only strings is not an error — there is no `EmptyKeywordSet`
condition: keyword normalization discards every such keyword, the scan
degrades to snapshot mode where every discovered candidate is matched, and
the operation never fails. -/
theorem C1_whitespace_keywords_snapshot (ks : List Str)
    (hk : ∀ k ∈ ks, stripStr k = []) :
    snapshot_mode ks = true ∧
    (∀ (cands : List CandidateFile) (sc fp rb : Bool),
      matchedFiles cands ks sc fp rb = cands) ∧
    (∀ (tree : FSForest) (rootStr : Str) (c : FilterCriteria)
      (sc fp rb gt sts : Bool) (treeGen : List CandidateFile → List Str)
      (e : ScanError),
      generate_snapshot true tree rootStr c ks sc fp rb gt sts treeGen ≠
        .error e) := by
  have hnorm : normalizeKeywords ks = [] := by
    simp only [normalizeKeywords, List.map_eq_nil_iff, List.filter_eq_nil_iff]
    intro k hkk
    simp [hk k hkk]
  have hmode : snapshot_mode ks = true := by
    simp [snapshot_mode, hnorm]
  refine ⟨hmode, fun cands sc fp rb => ?_, ?_⟩
  · simp [matchedFiles, hmode]
  · intro tree rootStr c sc fp rb gt sts treeGen e
    simp only [generate_snapshot, Bool.not_true, Bool.false_eq_true, if_false]
    split <;> simp

/-- Witness for C1 (amended) at the whitespace-only keyword list
`["  ", " "]` and a one-file tree. -/
theorem C1_whitespace_keywords_snapshot_witness :
    (∀ k ∈ (["  ".toList, " ".toList] : List Str), stripStr k = []) ∧
    (snapshot_mode ["  ".toList, " ".toList] = true ∧
      (∀ (cands : List CandidateFile) (sc fp rb : Bool),
        matchedFiles cands ["  ".toList, " ".toList] sc fp rb = cands) ∧
      (∀ (tree : FSForest) (rootStr : Str) (c : FilterCriteria)
        (sc fp rb gt sts : Bool) (treeGen : List CandidateFile → List Str)
        (e : ScanError),
        generate_snapshot true tree rootStr c ["  ".toList, " ".toList]
          sc fp rb gt sts treeGen ≠ .error e)) :=
  ⟨by decide, C1_whitespace_keywords_snapshot _ (by decide)⟩

/-- C2 counterexample: a scan that matches zero files produces no output
artifact at all — with include set `{".py"}` and a tree holding only
`a.md`, the matched set is empty and the outcome carries `none` in place of
an output buffer, so no buffer with a no-matches notice exists.  (The
repository's own test `test_manual_ignore_extensions` asserts the output
file is not created in this situation.) -/
theorem C2_counterexample :
    generate_snapshot true (.cons (.file "a.md".toList ["x".toList] true) .nil)
        "/r".toList (FilterCriteria.normalize_inputs [".py".toList] [] [] [] [])
        [] true true false true false (fun _ => []) =
      .ok ([], none) := by rfl

/-- C2 (amended): a scan whose matched-file set is empty is not an error —
the operation completes with an `ok` outcome — but it produces no output
artifact: the collation stage is skipped entirely, so there is no buffer,
hence no `FILE:` blocks and no notice of any kind. -/
theorem C2_zero_matches_no_artifact (tree : FSForest) (rootStr : Str)
    (c : FilterCriteria) (ks : List Str) (sc fp rb gt sts : Bool)
    (treeGen : List CandidateFile → List Str)
    (h : matchedFiles (discoverForest c rootStr tree) ks sc fp rb = []) :
    generate_snapshot true tree rootStr c ks sc fp rb gt sts treeGen =
      .ok ([], none) := by
  simp [generate_snapshot, h]

/-- Witness for C2 (amended): one `.md` file against include set `{".py"}`. -/
theorem C2_zero_matches_no_artifact_witness :
    matchedFiles
      (discoverForest (FilterCriteria.normalize_inputs [".py".toList] [] [] [] [])
        "/r".toList (.cons (.file "a.md".toList ["x".toList] true) .nil))
      ["zz".toList] true true false = [] ∧
    generate_snapshot true (.cons (.file "a.md".toList ["x".toList] true) .nil)
      "/r".toList (FilterCriteria.normalize_inputs [".py".toList] [] [] [] [])
      ["zz".toList] true true false true false (fun _ => []) = .ok ([], none) :=
  ⟨by decide, C2_zero_matches_no_artifact _ _ _ _ _ _ _ _ _ _ (by decide)⟩

mutual
theorem discoverEntry_not_ignored (c : FilterCriteria) (cur : Str) (e : FSEntry) :
    ∀ p ∈ discoverEntry c cur e, ∀ comp ∈ p.relParts,
      lowerStr comp ∉ c.ignore_if_in_path := by
  match e with
  | .file n content readable =>
    intro p hp comp hcomp
    simp only [discoverEntry] at hp
    split at hp
    · simp at hp
    · split at hp
      · simp only [List.mem_singleton] at hp
        subst hp
        simp only [List.mem_singleton] at hcomp
        subst hcomp
        assumption
      · simp at hp
  | .dir n f =>
    intro p hp comp hcomp
    simp only [discoverEntry] at hp
    split at hp
    · simp at hp
    · simp only [List.mem_map] at hp
      obtain ⟨q, hq, rfl⟩ := hp
      simp only [List.mem_cons] at hcomp
      rcases hcomp with rfl | hcomp
      · assumption
      · exact discoverForest_not_ignored c _ f q hq comp hcomp

theorem discoverForest_not_ignored (c : FilterCriteria) (cur : Str) (f : FSForest) :
    ∀ p ∈ discoverForest c cur f, ∀ comp ∈ p.relParts,
      lowerStr comp ∉ c.ignore_if_in_path := by
  match f with
  | .nil =>
    intro p hp
    simp [discoverForest] at hp
  | .cons e f =>
    intro p hp
    simp only [discoverForest, List.mem_append] at hp
    rcases hp with hp | hp
    · exact discoverEntry_not_ignored c cur e p hp
    · exact discoverForest_not_ignored c cur f p hp
end

/-- C7: for all criteria, no path component whose lower-cased name is an
ignore-path token appears, at any depth, in any candidate file's relative
path — the walker skips a matching entry before recursing, so the whole
subtree (including matching file names themselves) is pruned, never
post-filtered. -/
theorem C7_pruned_components_absent (c : FilterCriteria) (rootStr : Str)
    (tree : FSForest) (p : CandidateFile)
    (hp : p ∈ discoverForest c rootStr tree) (comp : Str)
    (hcomp : comp ∈ p.relParts) :
    lowerStr comp ∉ c.ignore_if_in_path :=
  discoverForest_not_ignored c rootStr tree p hp comp hcomp

/-- Witness for C7: the spec's concrete scenario — `.py` include set with
`node_modules`/`.venv` pruned; the candidate `src/utils.py` is produced and
the component `src` is not an ignore token. -/
theorem C7_pruned_components_absent_witness :
    ((⟨"/r/src/utils.py".toList, "utils.py".toList,
        ["src".toList, "utils.py".toList], [], true⟩ : CandidateFile) ∈
      discoverForest
        (FilterCriteria.normalize_inputs [".py".toList]
          ["node_modules".toList, ".venv".toList] [] [] [])
        "/r".toList
        (.cons (.dir "src".toList
            (.cons (.file "utils.py".toList [] true) .nil))
          (.cons (.dir "node_modules".toList
              (.cons (.file "dep.py".toList [] true) .nil)) .nil)) ∧
      "src".toList ∈ (["src".toList, "utils.py".toList] : List Str)) ∧
    lowerStr "src".toList ∉
      (FilterCriteria.normalize_inputs [".py".toList]
        ["node_modules".toList, ".venv".toList] [] [] []).ignore_if_in_path :=
  ⟨⟨by decide, by decide⟩,
    C7_pruned_components_absent
      (FilterCriteria.normalize_inputs [".py".toList]
        ["node_modules".toList, ".venv".toList] [] [] [])
      "/r".toList
      (.cons (.dir "src".toList
          (.cons (.file "utils.py".toList [] true) .nil))
        (.cons (.dir "node_modules".toList
            (.cons (.file "dep.py".toList [] true) .nil)) .nil))
      ⟨"/r/src/utils.py".toList, "utils.py".toList,
        ["src".toList, "utils.py".toList], [], true⟩
      (by decide) "src".toList (by decide)⟩

theorem isPrefixB_append (k t s : Str) (h : isPrefixB k t = true) :
    isPrefixB k (t ++ s) = true := by
  induction k generalizing t with
  | nil => rfl
  | cons x xs ih =>
    cases t with
    | nil => simp [isPrefixB] at h
    | cons y ys =>
      simp only [isPrefixB, Bool.and_eq_true, decide_eq_true_eq] at h
      simp only [List.cons_append, isPrefixB, Bool.and_eq_true,
        decide_eq_true_eq]
      exact ⟨h.1, ih ys h.2⟩

theorem strContains_nil (s : Str) : strContains s [] = true := by
  cases s <;> rfl

theorem strContains_append_left (t s k : Str)
    (h : strContains t k = true) : strContains (t ++ s) k = true := by
  induction t with
  | nil =>
    simp only [strContains, List.isEmpty_eq_true] at h
    subst h
    exact strContains_nil s
  | cons x xs ih =>
    simp only [strContains, Bool.or_eq_true] at h
    simp only [List.cons_append, strContains, Bool.or_eq_true]
    rcases h with h | h
    · exact Or.inl (isPrefixB_append k (x :: xs) s h)
    · exact Or.inr (ih h)

mutual
theorem discoverEntry_pathStr (c : FilterCriteria) (cur : Str) (e : FSEntry) :
    ∀ p ∈ discoverEntry c cur e, ∃ rest, p.pathStr = cur ++ rest := by
  match e with
  | .file n content readable =>
    intro p hp
    simp only [discoverEntry] at hp
    split at hp
    · simp at hp
    · split at hp
      · simp only [List.mem_singleton] at hp
        subst hp
        exact ⟨"/".toList ++ n, by simp⟩
      · simp at hp
  | .dir n f =>
    intro p hp
    simp only [discoverEntry] at hp
    split at hp
    · simp at hp
    · simp only [List.mem_map] at hp
      obtain ⟨q, hq, rfl⟩ := hp
      obtain ⟨rest, hrest⟩ := discoverForest_pathStr c _ f q hq
      exact ⟨"/".toList ++ n ++ rest, by simp [hrest]⟩

theorem discoverForest_pathStr (c : FilterCriteria) (cur : Str) (f : FSForest) :
    ∀ p ∈ discoverForest c cur f, ∃ rest, p.pathStr = cur ++ rest := by
  match f with
  | .nil =>
    intro p hp
    simp [discoverForest] at hp
  | .cons e f =>
    intro p hp
    simp only [discoverForest, List.mem_append] at hp
    rcases hp with hp | hp
    · exact discoverEntry_pathStr c cur e p hp
    · exact discoverForest_pathStr c cur f p hp
end

/-- C10: with `full_path_compare` enabled the name check tests keywords
against the lower-cased absolute path string, whose leading segment is the
scan root's own absolute path — so a keyword occurring anywhere in the
lower-cased root path makes every candidate file match by name, before any
content is consulted. -/
theorem C10_root_keyword_matches_all (c : FilterCriteria) (tree : FSForest)
    (rootStr : Str) (keywords : List Str) (key : Str)
    (search_content read_binary_files : Bool)
    (hkey : key ∈ keywords)
    (hsub : strContains (lowerStr rootStr) key = true) :
    ∀ p ∈ discoverForest c rootStr tree,
      process_file_for_search p keywords search_content true
        read_binary_files = true := by
  intro p hp
  obtain ⟨rest, hrest⟩ := discoverForest_pathStr c rootStr tree p hp
  have hmatch : strContains (lowerStr p.pathStr) key = true := by
    rw [hrest, lowerStr, List.map_append]
    exact strContains_append_left _ _ key hsub
  have hany : (keywords.any
      (fun k => strContains (lowerStr p.pathStr) k)) = true :=
    List.any_eq_true.2 ⟨key, hkey, hmatch⟩
  simp only [process_file_for_search, if_true, reduceIte, hany, if_pos]

/-- Witness for C10: root `/home/secrets/proj` and keyword `secret` — the
single candidate `notes.txt` matches by name although neither its name nor
its content mentions the keyword. -/
theorem C10_root_keyword_matches_all_witness :
    ("secret".toList ∈ (["secret".toList] : List Str) ∧
      strContains (lowerStr "/home/secrets/proj".toList) "secret".toList = true ∧
      (⟨"/home/secrets/proj/notes.txt".toList, "notes.txt".toList,
          ["notes.txt".toList], ["hello".toList], true⟩ : CandidateFile) ∈
        discoverForest ⟨∅, ∅, ∅⟩ "/home/secrets/proj".toList
          (.cons (.file "notes.txt".toList ["hello".toList] true) .nil)) ∧
    process_file_for_search
      ⟨"/home/secrets/proj/notes.txt".toList, "notes.txt".toList,
        ["notes.txt".toList], ["hello".toList], true⟩
      ["secret".toList] true true false = true :=
  ⟨⟨by decide, by decide, by decide⟩,
    C10_root_keyword_matches_all ⟨∅, ∅, ∅⟩
      (.cons (.file "notes.txt".toList ["hello".toList] true) .nil)
      "/home/secrets/proj".toList ["secret".toList] "secret".toList
      true false (by decide) (by decide)
      ⟨"/home/secrets/proj/notes.txt".toList, "notes.txt".toList,
        ["notes.txt".toList], ["hello".toList], true⟩
      (by decide)⟩

theorem strLe_total (a b : Str) : strLe a b = true ∨ strLe b a = true := by
  induction a generalizing b with
  | nil => exact Or.inl rfl
  | cons x xs ih =>
    cases b with
    | nil => exact Or.inr rfl
    | cons y ys =>
      rcases lt_trichotomy x y with h | h | h
      · left
        simp [strLe, h]
      · subst h
        rcases ih ys with h | h
        · left
          simp [strLe, h]
        · right
          simp [strLe, h]
      · right
        simp [strLe, h]

theorem strLe_trans (a b c : Str) (hab : strLe a b = true)
    (hbc : strLe b c = true) : strLe a c = true := by
  induction a generalizing b c with
  | nil => rfl
  | cons x xs ih =>
    cases b with
    | nil => simp [strLe] at hab
    | cons y ys =>
      cases c with
      | nil => simp [strLe] at hbc
      | cons z zs =>
        simp only [strLe, Bool.or_eq_true, Bool.and_eq_true,
          decide_eq_true_eq] at hab hbc ⊢
        rcases hab with h1 | ⟨rfl, h1⟩
        · rcases hbc with h2 | ⟨rfl, h2⟩
          · exact Or.inl (lt_trans h1 h2)
          · exact Or.inl h1
        · rcases hbc with h2 | ⟨rfl, h2⟩
          · exact Or.inl h2
          · exact Or.inr ⟨rfl, ih ys zs h1 h2⟩

/-- C6 counterexample: the output ordering is case-sensitive, not
case-insensitive — for matched files `a.py` and `B.py` the pipeline's sort
puts `B.py` first (code point of `B` precedes `a`), while the
case-insensitive sort the claim describes puts `a.py` first, and the two
orders differ. -/
theorem C6_counterexample :
    sortFiles
        [⟨"/r/a.py".toList, "a.py".toList, ["a.py".toList], [], true⟩,
         ⟨"/r/B.py".toList, "B.py".toList, ["B.py".toList], [], true⟩] =
      [⟨"/r/B.py".toList, "B.py".toList, ["B.py".toList], [], true⟩,
       ⟨"/r/a.py".toList, "a.py".toList, ["a.py".toList], [], true⟩] ∧
    sortFilesCI
        [⟨"/r/a.py".toList, "a.py".toList, ["a.py".toList], [], true⟩,
         ⟨"/r/B.py".toList, "B.py".toList, ["B.py".toList], [], true⟩] =
      [⟨"/r/a.py".toList, "a.py".toList, ["a.py".toList], [], true⟩,
       ⟨"/r/B.py".toList, "B.py".toList, ["B.py".toList], [], true⟩] ∧
    ([⟨"/r/B.py".toList, "B.py".toList, ["B.py".toList], [], true⟩,
      ⟨"/r/a.py".toList, "a.py".toList, ["a.py".toList], [], true⟩] :
        List CandidateFile) ≠
      [⟨"/r/a.py".toList, "a.py".toList, ["a.py".toList], [], true⟩,
       ⟨"/r/B.py".toList, "B.py".toList, ["B.py".toList], [], true⟩] := by
  refine ⟨by decide, by decide, by decide⟩

/-- C6 (amended): before any output-facing use the matched files are sorted
by relative path case-SENSITIVELY (plain code-point comparison of the POSIX
relative path, with no lower-casing in the key), and the pipeline hands that
one sorted list both to tree generation and to per-file collation. -/
theorem C6_sorted_case_sensitive (tree : FSForest) (rootStr : Str)
    (c : FilterCriteria) (ks : List Str) (sc fp rb gt sts : Bool)
    (treeGen : List CandidateFile → List Str)
    (h : (matchedFiles (discoverForest c rootStr tree) ks sc fp rb).isEmpty =
      false) :
    List.Sorted fileLe
      (sortFiles (matchedFiles (discoverForest c rootStr tree) ks sc fp rb)) ∧
    generate_snapshot true tree rootStr c ks sc fp rb gt sts treeGen =
      .ok (matchedFiles (discoverForest c rootStr tree) ks sc fp rb,
        some (collateLines
          (if gt then
            treeGen (sortFiles
              (matchedFiles (discoverForest c rootStr tree) ks sc fp rb))
          else [])
          sts
          (sortFiles
            (matchedFiles (discoverForest c rootStr tree) ks sc fp rb)))) := by
  constructor
  · exact @List.sorted_insertionSort _ fileLe _
      ⟨fun a b => strLe_total _ _⟩ ⟨fun a b c => strLe_trans _ _ _⟩ _
  · simp only [generate_snapshot, Bool.not_true, Bool.false_eq_true,
      if_false, h, sortFiles]

/-- Witness for C6 (amended) at a two-file tree with names `a.py`, `B.py`. -/
theorem C6_sorted_case_sensitive_witness :
    (matchedFiles
        (discoverForest (⟨∅, ∅, ∅⟩ : FilterCriteria) "/r".toList
          (.cons (.file "a.py".toList [] true)
            (.cons (.file "B.py".toList [] true) .nil)))
        [] true true false).isEmpty = false ∧
    List.Sorted fileLe
      (sortFiles (matchedFiles
        (discoverForest (⟨∅, ∅, ∅⟩ : FilterCriteria) "/r".toList
          (.cons (.file "a.py".toList [] true)
            (.cons (.file "B.py".toList [] true) .nil)))
        [] true true false)) :=
  ⟨by decide,
    (C6_sorted_case_sensitive
      (.cons (.file "a.py".toList [] true)
        (.cons (.file "B.py".toList [] true) .nil))
      "/r".toList ⟨∅, ∅, ∅⟩ [] true true false false false (fun _ => [])
      (by decide)).1⟩

theorem deconRun_readTree_collect (tls rest : List Str) (tree paths : List Str)
    (h : ∀ l ∈ tls, l ≠ sep80 ∧ l ≠ []) :
    deconRun .readingTree (tls ++ rest) tree paths =
      deconRun .readingTree rest (tls.reverse ++ tree) paths := by
  induction tls generalizing tree with
  | nil => simp
  | cons l tls ih =>
    have hl := h l (List.mem_cons_self _ _)
    have hne : ¬l.isEmpty = true := fun hE =>
      hl.2 (List.isEmpty_eq_true.1 hE)
    simp only [List.cons_append, deconRun]
    rw [if_neg hl.1, if_neg hne]
    simp only [List.append_eq]
    rw [ih (l :: tree) (fun x hx => h x (List.mem_cons_of_mem _ hx))]
    simp

theorem deconRun_readTree_blank (rest : List Str) (tree paths : List Str) :
    deconRun .readingTree ([] :: rest) tree paths =
      deconRun .readingTree rest tree paths := by
  have h : ¬([] : Str) = sep80 := by decide
  simp [deconRun, h]

theorem deconRun_readTree_sep_empty (rest : List Str) (paths : List Str) :
    deconRun .readingTree (sep80 :: rest) [] paths =
      deconRun .readingTree rest [] paths := by
  simp [deconRun]

theorem deconRun_readTree_sep (rest : List Str) (tree paths : List Str)
    (h : tree.isEmpty = false) :
    deconRun .readingTree (sep80 :: rest) tree paths =
      deconRun .seekingContent rest tree paths := by
  have h' : ¬tree.isEmpty = true := by
    rw [h]
    exact fun hT => absurd hT (by decide)
  simp [deconRun, h']

theorem deconRun_seek_other (l : Str) (ls : List Str) (tree paths : List Str)
    (h : isPrefixB "FILE: ".toList l = false) :
    deconRun .seekingContent (l :: ls) tree paths =
      deconRun .seekingContent ls tree paths := by
  have h' : ¬isPrefixB "FILE: ".toList l = true := by
    rw [h]
    exact fun hT => absurd hT (by decide)
  simp only [deconRun]
  rw [if_neg h']

theorem deconRun_seek_skip (ls rest : List Str) (tree paths : List Str)
    (h : ∀ l ∈ ls, isPrefixB "FILE: ".toList l = false) :
    deconRun .seekingContent (ls ++ rest) tree paths =
      deconRun .seekingContent rest tree paths := by
  induction ls with
  | nil => simp
  | cons l ls ih =>
    rw [List.cons_append, deconRun_seek_other l _ _ _ (h l (List.mem_cons_self _ _))]
    exact ih (fun x hx => h x (List.mem_cons_of_mem _ hx))

theorem deconRun_seek_hdr (rel : Str) (ls : List Str) (tree paths : List Str) :
    deconRun .seekingContent (fileHeaderLine rel :: ls) tree paths =
      deconRun .readingContent ls tree (rel :: paths) := by
  have hhdr : isPrefixB "FILE: ".toList (fileHeaderLine rel) = true := by
    simp only [fileHeaderLine]
    rfl
  have hdrop : (fileHeaderLine rel).drop 6 = rel := by
    simp only [fileHeaderLine]
    rfl
  simp only [deconRun]
  rw [if_pos hhdr, hdrop]

theorem deconRun_read_sep (ls : List Str) (tree paths : List Str) :
    deconRun .readingContent (sep80 :: ls) tree paths =
      deconRun .seekingContent ls tree paths := by
  simp [deconRun]

theorem deconRun_block_tail (rel : Str) (content rest : List Str)
    (tree paths : List Str)
    (hc : ∀ l ∈ content, isPrefixB "FILE: ".toList l = false) :
    deconRun .seekingContent
        (fileHeaderLine rel :: sep80 :: [] :: (content ++ ([] :: rest)))
        tree paths =
      deconRun .seekingContent rest tree (rel :: paths) := by
  have hblank : isPrefixB "FILE: ".toList ([] : Str) = false := by decide
  rw [deconRun_seek_hdr, deconRun_read_sep,
    deconRun_seek_other _ _ _ _ hblank,
    deconRun_seek_skip content ([] :: rest) _ _ hc,
    deconRun_seek_other _ _ _ _ hblank]

theorem fileBlockLines_shape (f : CandidateFile) (rest : List Str) :
    fileBlockLines f ++ rest =
      sep80 :: fileHeaderLine (relPosix f) :: sep80 :: [] ::
        ((if f.readable then f.contentLines else [readErrorLine]) ++
          ([] :: rest)) := by
  simp [fileBlockLines]

theorem deconRun_block (f : CandidateFile) (rest : List Str)
    (tree paths : List Str)
    (hf : ∀ l ∈ (if f.readable then f.contentLines else [readErrorLine]),
      isPrefixB "FILE: ".toList l = false) :
    deconRun .seekingContent (fileBlockLines f ++ rest) tree paths =
      deconRun .seekingContent rest tree (relPosix f :: paths) := by
  have hsep : isPrefixB "FILE: ".toList sep80 = false := by decide
  rw [fileBlockLines_shape, deconRun_seek_other _ _ _ _ hsep,
    deconRun_block_tail _ _ _ _ _ hf]

theorem deconRun_blocks (files : List CandidateFile) (rest : List Str)
    (tree paths : List Str)
    (hc : ∀ f ∈ files,
      ∀ l ∈ (if f.readable then f.contentLines else [readErrorLine]),
        isPrefixB "FILE: ".toList l = false) :
    deconRun .seekingContent (files.flatMap fileBlockLines ++ rest) tree paths =
      deconRun .seekingContent rest tree
        ((files.map relPosix).reverse ++ paths) := by
  induction files generalizing paths with
  | nil => simp
  | cons f fs ih =>
    rw [List.flatMap_cons, List.append_assoc,
      deconRun_block f _ _ _ (hc f (List.mem_cons_self _ _)),
      ih (relPosix f :: paths) (fun g hg => hc g (List.mem_cons_of_mem _ hg))]
    simp

theorem deconRun_seek_end (tree paths : List Str) :
    deconRun .seekingContent [[]] tree paths = (tree.reverse, paths.reverse) := by
  have hblank : isPrefixB "FILE: ".toList ([] : Str) = false := by decide
  rw [deconRun_seek_other _ _ _ _ hblank]
  rfl

theorem deconRun_tree_end (tree paths : List Str) :
    deconRun .readingTree [[]] tree paths = (tree.reverse, paths.reverse) := by
  rw [deconRun_readTree_blank]
  rfl

theorem deconRun_header (ls : List Str) (tree paths : List Str) :
    deconRun .seekingTreeHeader (treeHeaderText :: ls) tree paths =
      deconRun .readingTree ls tree paths := by
  simp [deconRun]

theorem isEmpty_false_of_left_ne_nil (xs ys : List Str) (h : xs ≠ []) :
    (xs.reverse ++ ys).isEmpty = false := by
  cases hx : xs.reverse ++ ys with
  | nil =>
    rcases List.append_eq_nil.1 hx with ⟨h1, _⟩
    exact absurd (by simpa using h1) h
  | cons a as => rfl

/-- C3 counterexample: the collate/deconstruct round-trip fails on
adversarial content — a matched file whose text contains the line
`FILE: evil` makes the deconstruct parser record a phantom second path, so
the recovered path list differs from the collated one-file set. -/
theorem C3_counterexample :
    (deconstruct_snapshot (collateLines ["x a.py".toList] false
        [⟨"/r/a.py".toList, "a.py".toList, ["a.py".toList],
          ["FILE: evil".toList], true⟩])).2 =
      ["a.py".toList, "evil".toList] ∧
    ["a.py".toList, "evil".toList] ≠
      List.map relPosix
        [⟨"/r/a.py".toList, "a.py".toList, ["a.py".toList],
          ["FILE: evil".toList], true⟩] := by
  refine ⟨by decide, by decide⟩

/-- C3 (amended): for well-formed inputs the collated buffer round-trips —
when the tree-line list is non-empty, none of its lines is the 80-dash
separator or blank, and no collated content line (the read-error note
included) starts with `FILE: `, deconstruction recovers exactly the
collated relative paths in order and a tree section consisting of the
supplied tree lines (preceded by the stats key when enabled), so any
matched filename occurring in a tree line is still present in the recovered
tree lines; without the content condition a phantom `FILE:` path can
appear. -/
theorem C3_collate_deconstruct_roundtrip (tree_lines : List Str) (sts : Bool)
    (files : List CandidateFile)
    (htne : tree_lines ≠ [])
    (htl : ∀ l ∈ tree_lines, l ≠ sep80 ∧ l ≠ [])
    (hc : ∀ f ∈ files,
      ∀ l ∈ (if f.readable then f.contentLines else [readErrorLine]),
        isPrefixB "FILE: ".toList l = false) :
    deconstruct_snapshot (collateLines tree_lines sts files) =
      ((if sts then statsKeyLines else []) ++ tree_lines,
        files.map relPosix) ∧
    ∀ f ∈ files,
      (∃ l ∈ tree_lines, strContains l f.name = true) →
      ∃ l ∈ (deconstruct_snapshot (collateLines tree_lines sts files)).1,
        strContains l f.name = true := by
  have htree : tree_lines.isEmpty = false := by
    cases tree_lines with
    | nil => exact absurd rfl htne
    | cons a as => rfl
  have hmain : deconstruct_snapshot (collateLines tree_lines sts files) =
      ((if sts then statsKeyLines else []) ++ tree_lines,
        files.map relPosix) := by
    simp only [deconstruct_snapshot, collateLines, htree, Bool.false_eq_true,
      if_false, List.append_assoc, List.cons_append, List.nil_append]
    rw [deconRun_header, deconRun_readTree_sep_empty, deconRun_readTree_blank]
    cases sts with
    | false =>
      simp only [Bool.false_eq_true, if_false, List.nil_append]
      rw [deconRun_readTree_collect tree_lines _ [] [] htl, List.append_nil,
        deconRun_readTree_blank]
      cases files with
      | nil =>
        simp only [List.flatMap_nil, List.nil_append]
        rw [deconRun_tree_end]
        simp
      | cons f fs =>
        have hem : (tree_lines.reverse).isEmpty = false := by
          simpa using isEmpty_false_of_left_ne_nil tree_lines [] htne
        rw [List.flatMap_cons, List.append_assoc, fileBlockLines_shape,
          deconRun_readTree_sep _ _ _ hem,
          deconRun_block_tail _ _ _ _ _ (hc f (List.mem_cons_self _ _)),
          deconRun_blocks fs [[]] _ [relPosix f]
            (fun g hg => hc g (List.mem_cons_of_mem _ hg)),
          deconRun_seek_end]
        simp
    | true =>
      simp only [if_true, List.append_assoc, List.cons_append,
        List.nil_append]
      have hk1 : ∀ l ∈ statsKeyLines, l ≠ sep80 ∧ l ≠ [] := by decide
      rw [deconRun_readTree_collect statsKeyLines _ [] [] hk1,
        List.append_nil, deconRun_readTree_blank,
        deconRun_readTree_collect tree_lines _ statsKeyLines.reverse [] htl,
        deconRun_readTree_blank]
      cases files with
      | nil =>
        simp only [List.flatMap_nil, List.nil_append]
        rw [deconRun_tree_end]
        simp
      | cons f fs =>
        have hem : ((tree_lines.reverse ++ statsKeyLines.reverse)).isEmpty =
            false := isEmpty_false_of_left_ne_nil tree_lines _ htne
        rw [List.flatMap_cons, List.append_assoc, fileBlockLines_shape,
          deconRun_readTree_sep _ _ _ hem,
          deconRun_block_tail _ _ _ _ _ (hc f (List.mem_cons_self _ _)),
          deconRun_blocks fs [[]] _ [relPosix f]
            (fun g hg => hc g (List.mem_cons_of_mem _ hg)),
          deconRun_seek_end]
        simp [statsKeyLines]
  refine ⟨hmain, ?_⟩
  intro f hf hex
  obtain ⟨l, hl, hcont⟩ := hex
  rw [hmain]
  exact ⟨l, List.mem_append.2 (Or.inr hl), hcont⟩

/-- Witness for C3 (amended): one tree line `x a.py`, one file `a.py` with
an innocuous content line. -/
theorem C3_collate_deconstruct_roundtrip_witness :
    ((["x a.py".toList] : List Str) ≠ [] ∧
      (∀ l ∈ (["x a.py".toList] : List Str), l ≠ sep80 ∧ l ≠ []) ∧
      (∀ f ∈ ([⟨"/r/a.py".toList, "a.py".toList, ["a.py".toList],
          ["print".toList], true⟩] : List CandidateFile),
        ∀ l ∈ (if f.readable then f.contentLines else [readErrorLine]),
          isPrefixB "FILE: ".toList l = false)) ∧
    deconstruct_snapshot (collateLines ["x a.py".toList] false
        [⟨"/r/a.py".toList, "a.py".toList, ["a.py".toList],
          ["print".toList], true⟩]) =
      (["x a.py".toList],
        List.map relPosix
          [⟨"/r/a.py".toList, "a.py".toList, ["a.py".toList],
            ["print".toList], true⟩]) :=
  ⟨⟨by decide, by decide, by decide⟩,
    ((C3_collate_deconstruct_roundtrip ["x a.py".toList] false
      [⟨"/r/a.py".toList, "a.py".toList, ["a.py".toList],
        ["print".toList], true⟩]
      (by decide) (by decide) (by decide)).1).trans (by simp)⟩

/-- Witness for C4 (amended): `data.py` and `main.py` share the suffix
`.py` and are classified alike under criteria that include only `.py`. -/
theorem C4_extension_only_acceptance_witness :
    pathSuffix "data.py".toList = pathSuffix "main.py".toList ∧
    fileAccepted (FilterCriteria.normalize_inputs [".py".toList] [] [] [] [])
        "data.py".toList =
      fileAccepted (FilterCriteria.normalize_inputs [".py".toList] [] [] [] [])
        "main.py".toList :=
  ⟨by decide,
    (C4_extension_only_acceptance
      (FilterCriteria.normalize_inputs [".py".toList] [] [] [] [])
      "data.py".toList).2 "data.py".toList "main.py".toList (by decide)⟩
